import Mathlib

/-!
Shallow embedding of the github-mcp-server repository's core logic:
the multi-account registry (`GitHubServiceImpl`), the commit assembler
(`handleCreateCommit`), and the file operators (`handlePushFile`,
`handleCreateOrUpdateFile`, `handleCompareFiles`).

Modelling conventions:
* TypeScript strings are Lean `String`; optional values are `Option`.
* JavaScript truthiness of a string value (`s` is falsy iff it is the
  empty string, `undefined` is falsy) is made explicit wherever the
  source relies on it (`owner || this.selectedOwner`, `if (!effectiveOwner)`,
  `if (value && owner)`, `if (newCommit.data.sha)`).
* Thrown exceptions are values of `Thrown`; an `McpError` is modelled by
  its code and message, a generic JS/HTTP error by its message alone.
* Remote octokit calls and local filesystem reads are external
  collaborators: they are passed in as an environment of functions
  returning `Except String`, and every issued call is recorded in an
  event log (`GitCall`) so that statements about which remote writes
  were performed can be made.
* Base64 transport encoding is bijective, so file contents are carried
  as their decoded text throughout.
-/

deriving instance DecidableEq for Except

/-- ASCII lowercasing, the effect of JS `String.prototype.toLowerCase` on
the ASCII owner names this server deals in (and of Lean's own
`String.toLower`), written over the character list so it evaluates. -/
def lowerChar (c : Char) : Char :=
  if 65 ≤ c.toNat ∧ c.toNat ≤ 90 then Char.ofNat (c.toNat + 32) else c

def lowercase (s : String) : String := ⟨s.data.map lowerChar⟩

/-- `s.startsWith p`, over character lists so it evaluates. -/
def charsStartWith : List Char → List Char → Bool
  | _, [] => true
  | [], _ :: _ => false
  | c :: cs, d :: ds => c = d && charsStartWith cs ds

def startsWithStr (s p : String) : Bool := charsStartWith s.data p.data

/-- JS `s.replace(p, '')` for the guarded use in the config parser, where
`p` is known to occur at position 0: the first occurrence is removed. -/
def stripFirst (s p : String) : String :=
  if startsWithStr s p then ⟨s.data.drop p.data.length⟩ else s

/-- Error codes of the MCP SDK actually used by the source. -/
inductive ErrorCode
  | invalidParams
  | internalError
  deriving DecidableEq, Repr

/-- A thrown JS value: either an `McpError` (code plus message) or a plain
error carrying a message (fs / octokit failures).  `McpError` is modelled
by the message string passed to its constructor. -/
inductive Thrown
  | mcpError (code : ErrorCode) (message : String)
  | jsError (message : String)
  deriving DecidableEq, Repr

/-- `error.message`, as read by the catch-all handlers. -/
def Thrown.message : Thrown → String
  | .mcpError _ m => m
  | .jsError m => m

/-! ## Account registry (`GitHubServiceImpl`, src: github-service file) -/

/-- A configured account: `{ owner, token }`. -/
structure GitHubAccount where
  owner : String
  token : String
  deriving DecidableEq, Repr

/-- State of `GitHubServiceImpl`: the insertion-ordered key list of the
`octokitInstances` Map (keys are lowercased owner names; the Octokit
values are opaque and represented by their key) and the mutable
`selectedOwner` slot. -/
structure GitHubServiceImpl where
  keys : List String
  selectedOwner : Option String
  deriving DecidableEq, Repr

/-- JS `Map.set` key behaviour: a new key is appended, an existing key
keeps its original insertion position. -/
def insertKey (ks : List String) (k : String) : List String :=
  if ks.contains k then ks else ks ++ [k]

/-- The constructor of `GitHubServiceImpl`: throws when no accounts are
configured, registers each account under its lowercased owner name, and
applies the default owner as initial selection only when it matches a
configured account. -/
def mkService (accounts : List GitHubAccount) (defaultOwner : Option String) :
    Except String GitHubServiceImpl :=
  if accounts.isEmpty then
    .error "No GitHub accounts configured"
  else
    let ks := accounts.foldl (fun l a => insertKey l (lowercase a.owner)) []
    let sel : Option String :=
      match defaultOwner with
      | some d => if ks.contains (lowercase d) then some d else none
      | none => none
    .ok { keys := ks, selectedOwner := sel }

/-- `listAccounts()`: `Array.from(this.octokitInstances.keys())`. -/
def listAccounts (svc : GitHubServiceImpl) : List String :=
  svc.keys

/-- The `No owner selected` error thrown by `getEffectiveOwner`. -/
def noOwnerSelectedError (svc : GitHubServiceImpl) : Thrown :=
  .mcpError .invalidParams
    ("No owner selected. Use list_accounts to see available accounts and select_account to choose one. Available owners: "
      ++ String.intercalate ", " (listAccounts svc))

/-- JS `a || b` on an optional string argument: the empty string is falsy,
so it falls through to `b`. -/
def jsOrString (a b : Option String) : Option String :=
  match a with
  | some s => if s = "" then b else some s
  | none => b

/-- `getEffectiveOwner(owner?)`: `owner || this.selectedOwner`, then the
JS-falsy check `if (!effectiveOwner) throw`. -/
def getEffectiveOwner (svc : GitHubServiceImpl) (owner : Option String) :
    Except Thrown String :=
  match jsOrString owner svc.selectedOwner with
  | none => .error (noOwnerSelectedError svc)
  | some s => if s = "" then .error (noOwnerSelectedError svc) else .ok s

/-- `getOctokitForOwner(owner?)`: resolve the effective owner, then look up
its client under the lowercased name; the client handle is represented by
that key. -/
def getOctokitForOwner (svc : GitHubServiceImpl) (owner : Option String) :
    Except Thrown String := do
  let eo ← getEffectiveOwner svc owner
  if svc.keys.contains (lowercase eo) then
    .ok (lowercase eo)
  else
    .error (.mcpError .invalidParams
      ("No GitHub token configured for owner: " ++ eo ++ ". Available owners: "
        ++ String.intercalate ", " (listAccounts svc)))

/-- `selectAccount(owner)`: throws `Invalid owner` before any mutation when
the lowercased owner is not a Map key, otherwise assigns `selectedOwner`.
The returned pair carries the (possibly updated) state. -/
def selectAccount (svc : GitHubServiceImpl) (owner : String) :
    Except Thrown Unit × GitHubServiceImpl :=
  if svc.keys.contains (lowercase owner) then
    (.ok (), { svc with selectedOwner := some owner })
  else
    (.error (.mcpError .invalidParams
      ("Invalid owner: " ++ owner ++ ". Available owners: "
        ++ String.intercalate ", " (listAccounts svc))), svc)

/-- `parseGitHubAccounts()`: walk the environment entries, pair each
`GITHUB_TOKEN_<id>` with `GITHUB_OWNER_<id>`, and keep the pair only when
both values are truthy (`if (value && owner)`). -/
def envLookup (env : List (String × String)) (k : String) : Option String :=
  (env.find? (fun p => p.1 = k)).map (fun p => p.2)

def parseAccountsStep (env : List (String × String))
    (acc : List GitHubAccount) (kv : String × String) : List GitHubAccount :=
  if startsWithStr kv.1 "GITHUB_TOKEN_" then
    let id := stripFirst kv.1 "GITHUB_TOKEN_"
    match envLookup env ("GITHUB_OWNER_" ++ id) with
    | some owner =>
        if kv.2 ≠ "" ∧ owner ≠ "" then acc ++ [⟨owner, kv.2⟩] else acc
    | none => acc
  else acc

def parseGitHubAccounts (env : List (String × String)) :
    Except String (List GitHubAccount) :=
  let accounts := env.foldl (parseAccountsStep env) []
  if accounts.isEmpty then
    .error "No GitHub accounts configured. Set GITHUB_TOKEN_<id> and GITHUB_OWNER_<id> environment variables."
  else
    .ok accounts

example : mkService [⟨"Alice", "t1"⟩, ⟨"bob", "t2"⟩] none =
    .ok { keys := ["alice", "bob"], selectedOwner := none } := by decide

example : (selectAccount { keys := ["alice", "bob"], selectedOwner := none } "Bob").2 =
    { keys := ["alice", "bob"], selectedOwner := some "Bob" } := by decide

example : getEffectiveOwner { keys := ["alice"], selectedOwner := some "Bob" } (some "") =
    .ok "Bob" := by decide

/-! ## Commit assembler (`handleCreateCommit`, src: commit handler file) -/

/-- A file-level change of a `create_commit` request. -/
inductive ChangeOp
  | add
  | modify
  | delete
  deriving DecidableEq, Repr

/-- The string the source interpolates for the operation. -/
def ChangeOp.str : ChangeOp → String
  | .add => "add"
  | .modify => "modify"
  | .delete => "delete"

structure Change where
  path : String
  sourcePath : Option String := none
  operation : ChangeOp
  deriving DecidableEq, Repr

/-- A tree-override entry as pushed by the loop:
`{path, mode: '100644', type: 'blob', sha}`. -/
structure TreeEntry where
  path : String
  mode : String
  entryType : String
  sha : String
  deriving DecidableEq, Repr

structure CommitAuthor where
  name : String
  email : String
  deriving DecidableEq, Repr

/-- The parameter object handed to `octokit.git.createCommit`. -/
structure CommitParams where
  owner : String
  repo : String
  message : String
  tree : String
  parents : List String
  author : Option CommitAuthor := none
  sign : Bool := false
  deriving DecidableEq, Repr

/-- `ref.data.object.sha` of `octokit.git.getRef`. -/
structure RefData where
  sha : String
  deriving DecidableEq, Repr

/-- The slice of `octokit.git.getCommit`'s response the source reads:
`data.sha` and `data.tree.sha`. -/
structure CommitInfo where
  sha : String
  treeSha : String
  deriving DecidableEq, Repr

/-- The slice of `octokit.git.createCommit`'s response the source reads:
`newCommit.data` represented by its `sha`. -/
structure CommitData where
  sha : String
  deriving DecidableEq, Repr

/-- One issued remote (or local-fs) call, recorded in program order. -/
inductive GitCall
  | getRef (owner repo ref : String)
  | getCommit (owner repo sha : String)
  | createBlob (owner repo content : String)
  | createTree (owner repo baseTree : String) (entries : List TreeEntry)
  | createCommit (params : CommitParams)
  | updateRef (owner repo ref sha : String)
  | readFile (path : String)
  | notify (repo sha : String)
  deriving DecidableEq, Repr

/-- The external collaborators: octokit's git namespace plus `fs.readFile`.
Each function gives the response (or thrown message) of the corresponding
call. -/
structure GitApi where
  getRef : String → String → String → Except String RefData
  getCommitInfo : String → String → String → Except String CommitInfo
  createBlob : String → String → String → Except String String
  createTree : String → String → String → List TreeEntry → Except String String
  createCommit : CommitParams → Except String CommitData
  updateRef : String → String → String → String → Except String Unit
  readFile : String → Except String String

/-- The sequential-with-exceptions execution of an async handler body,
threading the log of issued calls. -/
def CommitM (α : Type) : Type :=
  List GitCall → List GitCall × Except Thrown α

def CommitM.pure (a : α) : CommitM α := fun s => (s, .ok a)

def CommitM.bind (x : CommitM α) (f : α → CommitM β) : CommitM β := fun s =>
  match x s with
  | (s1, .ok a) => f a s1
  | (s1, .error e) => (s1, .error e)

instance : Monad CommitM where
  pure := CommitM.pure
  bind := CommitM.bind

def CommitM.throw (e : Thrown) : CommitM α := fun s => (s, .error e)

def CommitM.tryCatch (x : CommitM α) (h : Thrown → CommitM α) : CommitM α := fun s =>
  match x s with
  | (s1, .ok a) => (s1, .ok a)
  | (s1, .error e) => h e s1

instance : MonadExceptOf Thrown CommitM where
  throw := CommitM.throw
  tryCatch := CommitM.tryCatch

/-- Record one issued call. -/
def emitCall (c : GitCall) : CommitM Unit := fun s => (s ++ [c], .ok ())

/-- An awaited octokit/fs call: its rejection is a thrown JS error. -/
def liftApi (r : Except String α) : CommitM α := fun s =>
  (s, match r with
      | .ok a => .ok a
      | .error m => .error (.jsError m))

/-- An awaited call of a service method that throws `McpError`s. -/
def liftThrown (r : Except Thrown α) : CommitM α := fun s => (s, r)

/-- The `create_commit` argument object (`args as CommitOperation`). -/
structure CommitRequest where
  owner : Option String := none
  repo : String
  branch : String
  message : String
  changes : List Change
  author : Option CommitAuthor := none
  sign : Bool := false
  deriving Repr

/-- The two success payload shapes of `handleCreateCommit`:
`createResponse(newCommit.data)` and
`createResponse({commit, warning})`. -/
inductive CommitResponse
  | ok (commit : CommitData)
  | okWithWarning (commit : CommitData) (warning : String)
  deriving DecidableEq, Repr

/-- The blob-creation loop (`for (const change of changes)`): skip
deletes; for add/modify require `sourcePath`, read the local file, create
the blob, and collect the tree entry. -/
def processChanges (api : GitApi) (eo repo : String) : List Change → CommitM (List TreeEntry)
  | [] => pure []
  | c :: rest =>
    match c.operation with
    | .delete => processChanges api eo repo rest
    | op => do
        match c.sourcePath with
        | none =>
            CommitM.throw (.mcpError .invalidParams
              ("sourcePath required for " ++ op.str ++ " operation on " ++ c.path))
        | some sp => do
            emitCall (.readFile sp)
            let content ← liftApi (api.readFile sp)
            emitCall (.createBlob eo repo content)
            let blobSha ← liftApi (api.createBlob eo repo content)
            let restEntries ← processChanges api eo repo rest
            pure ({ path := c.path, mode := "100644", entryType := "blob",
                    sha := blobSha } :: restEntries)

/-- The trailing section of `handleCreateCommit`: the
`if (newCommit.data && newCommit.data.sha)` truthiness check, then under
an inner catch verify the commit and invoke the injected callback; a
failure there is downgraded to a warning on the success response. -/
def verifyAndNotify (api : GitApi) (eo repo : String)
    (notifyDevHub : Option (String → String → Except String Unit))
    (newCommit : CommitData) : CommitM CommitResponse :=
  if newCommit.sha ≠ "" then
    CommitM.tryCatch
      (do
        emitCall (.getCommit eo repo newCommit.sha)
        let _verified ← liftApi (api.getCommitInfo eo repo newCommit.sha)
        match notifyDevHub with
        | some f => do
            emitCall (.notify repo newCommit.sha)
            liftApi (f repo newCommit.sha)
            pure (CommitResponse.ok newCommit)
        | none => pure (CommitResponse.ok newCommit))
      (fun _e =>
        CommitM.pure (.okWithWarning newCommit
          "Commit successful but failed to clear project changes"))
  else
    CommitM.throw (.mcpError .internalError "Invalid commit response from GitHub")

/-- The body of `handleCreateCommit`'s `try` block. -/
def createCommitBody (svc : GitHubServiceImpl) (api : GitApi) (req : CommitRequest)
    (notifyDevHub : Option (String → String → Except String Unit)) :
    CommitM CommitResponse := do
  let _client ← liftThrown (getOctokitForOwner svc req.owner)
  let effectiveOwner ← liftThrown (getEffectiveOwner svc req.owner)
  emitCall (.getRef effectiveOwner req.repo ("heads/" ++ req.branch))
  let refData ← liftApi (api.getRef effectiveOwner req.repo ("heads/" ++ req.branch))
  emitCall (.getCommit effectiveOwner req.repo refData.sha)
  let latestCommit ← liftApi (api.getCommitInfo effectiveOwner req.repo refData.sha)
  let trees ← processChanges api effectiveOwner req.repo req.changes
  emitCall (.createTree effectiveOwner req.repo latestCommit.treeSha trees)
  let treeSha ← liftApi (api.createTree effectiveOwner req.repo latestCommit.treeSha trees)
  let commitParams : CommitParams :=
    { owner := effectiveOwner, repo := req.repo, message := req.message,
      tree := treeSha, parents := [refData.sha],
      author := req.author, sign := req.sign }
  emitCall (.createCommit commitParams)
  let newCommit ← liftApi (api.createCommit commitParams)
  emitCall (.updateRef effectiveOwner req.repo ("heads/" ++ req.branch) newCommit.sha)
  liftApi (api.updateRef effectiveOwner req.repo ("heads/" ++ req.branch) newCommit.sha)
  verifyAndNotify api effectiveOwner req.repo notifyDevHub newCommit

/-- `handleCreateCommit`: the body under the catch-all that rewraps any
thrown error as `McpError(InternalError, 'Failed to create commit: ...')`,
run on the empty call log. -/
def runCreateCommit (svc : GitHubServiceImpl) (api : GitApi) (req : CommitRequest)
    (notifyDevHub : Option (String → String → Except String Unit)) :
    List GitCall × Except Thrown CommitResponse :=
  CommitM.tryCatch (createCommitBody svc api req notifyDevHub)
    (fun e => CommitM.throw
      (.mcpError .internalError ("Failed to create commit: " ++ e.message)))
    []

/-! ## File operators (`handlePushFile`, `handleCreateOrUpdateFile`,
`handleCompareFiles`, src: src/handlers/file.ts) -/

/-- The argument object of the file tools; a field is `some` exactly when
the corresponding key is present in the JS object. -/
structure FileArgs where
  owner : Option String := none
  repo : Option String := none
  path : Option String := none
  message : Option String := none
  content : Option String := none
  sourcePath : Option String := none
  branch : Option String := none
  sha : Option String := none
  localPath : Option String := none
  outputPath : Option String := none
  deriving DecidableEq, Repr

/-- A rejected octokit REST call: HTTP status (when one exists) plus
message, as inspected by the `error.status !== 404` branch. -/
structure ApiError where
  status : Option Nat
  message : String
  deriving DecidableEq, Repr

/-- The slice of `repos.getContent`'s response the file handlers read:
`content` (carried decoded) when the key is present, and `sha` when that
key is present. -/
structure ContentData where
  content : Option String
  sha : Option String
  deriving DecidableEq, Repr

/-- The parameter object of `repos.createOrUpdateFileContents`; `content`
carries the pushed text (base64 transport is bijective and left
implicit), and `sha` is present only when the resolved sha was truthy. -/
structure UpsertParams where
  owner : String
  repo : String
  path : String
  message : String
  content : String
  branch : String
  sha : Option String
  deriving DecidableEq, Repr

/-- The octokit repos namespace plus `fs.readFile`, for the file
handlers; `createOrUpdateFileContents` yields its opaque response
payload. -/
structure RepoApi where
  getContent : String → String → String → String → Except ApiError ContentData
  createOrUpdateFileContents : UpsertParams → Except String String
  readFile : String → Except String String

/-- Key presence in the args object, for `validateArgs`. -/
def hasField (a : FileArgs) : String → Bool
  | "owner" => a.owner.isSome
  | "repo" => a.repo.isSome
  | "path" => a.path.isSome
  | "message" => a.message.isSome
  | "content" => a.content.isSome
  | "sourcePath" => a.sourcePath.isSome
  | "branch" => a.branch.isSome
  | "sha" => a.sha.isSome
  | "localPath" => a.localPath.isSome
  | "outputPath" => a.outputPath.isSome
  | _ => false

def firstMissingField (a : FileArgs) : List String → Option String
  | [] => none
  | f :: rest => if hasField a f then firstMissingField a rest else some f

/-- `validateArgs(args, required)`: plain `Error` throws, before any other
work. -/
def validateFileArgs (args : Option FileArgs) (required : List String) :
    Except Thrown FileArgs :=
  match args with
  | none => .error (.jsError "Arguments are required")
  | some a =>
      match firstMissingField a required with
      | some f => .error (.jsError ("Missing required field: " ++ f))
      | none => .ok a

/-- JS truthiness of an optional string. -/
def jsTruthyOpt : Option String → Bool
  | some s => s ≠ ""
  | none => false

/-- An awaited fs/octokit call inside a handler body. -/
def liftJsE (r : Except String α) : Except Thrown α :=
  match r with
  | .ok a => .ok a
  | .error m => .error (.jsError m)

def liftApiE (r : Except ApiError α) : Except Thrown α :=
  match r with
  | .ok a => .ok a
  | .error e => .error (.jsError e.message)

/-- A handler's catch-all: any thrown error is rewrapped as
`McpError(InternalError, prefix + error.message)`. -/
def wrapCatch (prefixMsg : String) (x : Except Thrown α) : Except Thrown α :=
  match x with
  | .ok a => .ok a
  | .error e => .error (.mcpError .internalError (prefixMsg ++ e.message))

/-- The sha auto-resolution of `handleCreateOrUpdateFile`: keep a truthy
provided sha; otherwise look the path up, treating 404 as absent and any
other failure as fatal. -/
def resolveSha (api : RepoApi) (eo : String) (a : FileArgs) :
    Except Thrown (Option String) :=
  if jsTruthyOpt a.sha then .ok a.sha
  else
    match api.getContent eo (a.repo.getD "") (a.path.getD "") (a.branch.getD "main") with
    | .ok cd => .ok cd.sha
    | .error e => if e.status = some 404 then .ok none else .error (.jsError e.message)

/-- The `try` body of `handleCreateOrUpdateFile`. -/
def createOrUpdateBody (svc : GitHubServiceImpl) (api : RepoApi) (a : FileArgs)
    (eo : String) : Except Thrown String := do
  let _client ← getOctokitForOwner svc a.owner
  let fileContent ← liftJsE (api.readFile (a.sourcePath.getD ""))
  let sha ← resolveSha api eo a
  liftJsE (api.createOrUpdateFileContents
    { owner := eo, repo := a.repo.getD "", path := a.path.getD "",
      message := a.message.getD "", content := fileContent,
      branch := a.branch.getD "main",
      sha := if jsTruthyOpt sha then sha else none })

/-- `handleCreateOrUpdateFile`: missing args, then the inline-content
policy rejection, then `validateArgs`, owner resolution, and the guarded
read-resolve-upsert body. -/
def handleCreateOrUpdateFile (svc : GitHubServiceImpl) (api : RepoApi)
    (args : Option FileArgs) : Except Thrown String :=
  match args with
  | none => .error (.mcpError .invalidParams "Arguments are required")
  | some a =>
      if a.content.isSome then
        .error (.mcpError .invalidParams
          "Direct content upload is not allowed. Use push_file with sourcePath instead.")
      else
        match validateFileArgs (some a) ["repo", "path", "message", "sourcePath"] with
        | .error e => .error e
        | .ok _ =>
            match getEffectiveOwner svc a.owner with
            | .error e => .error e
            | .ok eo => wrapCatch "Failed to create/update file: " (createOrUpdateBody svc api a eo)

/-- `handlePushFile`: validate, resolve the owner (its failure propagates
unwrapped), read the source file under the catch, then delegate.  The
delegate call is `return handleCreateOrUpdateFile(...)` without `await`,
so its rejection bypasses this handler's catch and surfaces unwrapped;
the forwarded argument object carries a `content` key and no
`sourcePath`. -/
def handlePushFile (svc : GitHubServiceImpl) (api : RepoApi)
    (args : Option FileArgs) : Except Thrown String := do
  let a ← validateFileArgs args ["repo", "path", "message", "sourcePath"]
  let _eo ← getEffectiveOwner svc a.owner
  let content ← wrapCatch "Failed to push file: " (liftJsE (api.readFile (a.sourcePath.getD "")))
  handleCreateOrUpdateFile svc api (some
    { owner := a.owner, repo := a.repo, path := a.path, message := a.message,
      content := some content, branch := some (a.branch.getD "main") })

/-- The `details` object of a `compare_files` response. -/
structure CompareDetails where
  localSize : Nat
  remoteSize : Nat
  remoteSha : Option String
  deriving DecidableEq, Repr

/-- The response payload of `compare_files`. -/
structure CompareResult where
  isDifferent : Bool
  message : String
  details : Option CompareDetails
  deriving DecidableEq, Repr

/-- The `try` body of `handleCompareFiles`: fetch the remote content,
require inline content, read the local file, compare the decoded texts. -/
def compareFilesBody (svc : GitHubServiceImpl) (api : RepoApi) (a : FileArgs)
    (eo : String) : Except Thrown CompareResult := do
  let _client ← getOctokitForOwner svc a.owner
  let cd ← liftApiE (api.getContent eo (a.repo.getD "") (a.path.getD "") (a.branch.getD "main"))
  match cd.content with
  | none => Except.error (.mcpError .invalidParams "Invalid remote file data")
  | some remoteContent => do
      let localContent ← liftJsE (api.readFile (a.localPath.getD ""))
      let isDifferent := localContent != remoteContent
      pure { isDifferent := isDifferent,
             message := if isDifferent then "Files are different" else "Files are identical",
             details :=
               if isDifferent then
                 some { localSize := localContent.length,
                        remoteSize := remoteContent.length,
                        remoteSha := cd.sha }
               else none }

/-- `handleCompareFiles`: validate, resolve the owner (unwrapped), then
the guarded compare body. -/
def handleCompareFiles (svc : GitHubServiceImpl) (api : RepoApi)
    (args : Option FileArgs) : Except Thrown CompareResult := do
  let a ← validateFileArgs args ["repo", "path", "localPath"]
  let eo ← getEffectiveOwner svc a.owner
  wrapCatch "Failed to compare files: " (compareFilesBody svc api a eo)

/-! ## Derived observations used by the statements -/

/-- The first change the blob loop does not skip (operation not delete). -/
def firstNonDelete : List Change → Option Change
  | [] => none
  | c :: rest => if c.operation = .delete then firstNonDelete rest else some c

/-- The tree entry the loop collects for a change, when it collects one:
`none` for a delete, or when the source read or blob creation fails. -/
def changeEntry (api : GitApi) (eo repo : String) (c : Change) : Option TreeEntry :=
  match c.operation with
  | .delete => none
  | _ =>
      match c.sourcePath with
      | none => none
      | some sp =>
          match api.readFile sp with
          | .error _ => none
          | .ok content =>
              match api.createBlob eo repo content with
              | .error _ => none
              | .ok sha => some { path := c.path, mode := "100644",
                                  entryType := "blob", sha := sha }

/-- The calls the loop issues for one change on its success path. -/
def changeCalls (api : GitApi) (eo repo : String) (c : Change) : List GitCall :=
  match c.operation with
  | .delete => []
  | _ =>
      match c.sourcePath with
      | none => []
      | some sp =>
          GitCall.readFile sp ::
            (match api.readFile sp with
             | .error _ => []
             | .ok content => [GitCall.createBlob eo repo content])

def isCreateTreeCall : GitCall → Bool
  | .createTree _ _ _ _ => true
  | _ => false

def isCreateCommitCall : GitCall → Bool
  | .createCommit _ => true
  | _ => false

/-- A remote write: blob, tree or commit object creation, or a ref
update.  `getRef`, `getCommit`, local file reads and the notification
callback are not writes. -/
def isRemoteWrite : GitCall → Bool
  | .createBlob _ _ _ => true
  | .createTree _ _ _ _ => true
  | .createCommit _ => true
  | .updateRef _ _ _ _ => true
  | _ => false

/-- Modelled from the spec: the remote tree-construction primitive's
assumed contract (spec section 3 and section 4.2), which is not code of
this repository — a base tree plus a sparse override list, where entries
present in the override list replace matching paths in the base, other
base entries are kept, and override entries for new paths are appended.
A tree is represented as a path-to-content-hash association list. -/
def applyTreeOverrides (base : List (String × String)) (overrides : List TreeEntry) :
    List (String × String) :=
  base.map (fun pr =>
    match overrides.find? (fun e => e.path = pr.1) with
    | some e => (pr.1, e.sha)
    | none => pr)
  ++ (overrides.filter (fun e => base.all (fun pr => pr.1 ≠ e.path))).map
      (fun e => (e.path, e.sha))

/-! ## Registry lemmas -/

theorem mem_insertKey (ks : List String) (k a : String) :
    a ∈ insertKey ks k ↔ a ∈ ks ∨ a = k := by
  unfold insertKey
  by_cases h : k ∈ ks
  · rw [if_pos (by simp [List.contains, List.elem_eq_mem, h])]
    constructor
    · exact fun ha => Or.inl ha
    · rintro (ha | rfl)
      · exact ha
      · exact h
  · rw [if_neg (by simp [List.contains, List.elem_eq_mem, h])]
    simp [List.mem_append]

theorem mem_foldl_insertKey (accounts : List GitHubAccount) (init : List String)
    (k : String) :
    k ∈ accounts.foldl (fun l a => insertKey l (lowercase a.owner)) init ↔
      k ∈ init ∨ ∃ a ∈ accounts, lowercase a.owner = k := by
  induction accounts generalizing init with
  | nil => simp
  | cons a0 rest ih =>
      simp only [List.foldl_cons, ih, mem_insertKey, List.mem_cons]
      constructor
      · rintro ((h | h) | ⟨a, ha, hk⟩)
        · exact Or.inl h
        · exact Or.inr ⟨a0, Or.inl rfl, h.symm⟩
        · exact Or.inr ⟨a, Or.inr ha, hk⟩
      · rintro (h | ⟨a, (ha | ha), hk⟩)
        · exact Or.inl (Or.inl h)
        · exact Or.inl (Or.inr (ha ▸ hk.symm))
        · exact Or.inr ⟨a, ha, hk⟩

theorem foldl_insertKey_nodup (accounts : List GitHubAccount) (init : List String)
    (hn : (accounts.map (fun a => lowercase a.owner)).Nodup)
    (hd : ∀ a ∈ accounts, lowercase a.owner ∉ init) :
    accounts.foldl (fun l a => insertKey l (lowercase a.owner)) init =
      init ++ accounts.map (fun a => lowercase a.owner) := by
  induction accounts generalizing init with
  | nil => simp
  | cons a0 rest ih =>
      simp only [List.map_cons, List.nodup_cons] at hn
      have hmem : lowercase a0.owner ∉ init := hd a0 (List.mem_cons_self a0 rest)
      have hstep : insertKey init (lowercase a0.owner) = init ++ [lowercase a0.owner] := by
        unfold insertKey
        rw [if_neg (by simp [List.contains, List.elem_eq_mem, hmem])]
      have hd2 : ∀ a ∈ rest, lowercase a.owner ∉ init ++ [lowercase a0.owner] := by
        intro a ha
        simp only [List.mem_append, List.mem_singleton]
        rintro (h | h)
        · exact hd a (List.mem_cons_of_mem a0 ha) h
        · exact hn.1 (h ▸ List.mem_map_of_mem (fun a => lowercase a.owner) ha)
      simp only [List.foldl_cons, hstep]
      rw [ih (init ++ [lowercase a0.owner]) hn.2 hd2]
      simp

theorem mkService_ok_parts (accounts : List GitHubAccount)
    (defaultOwner : Option String) (svc : GitHubServiceImpl)
    (h : mkService accounts defaultOwner = .ok svc) :
    svc.keys = accounts.foldl (fun l a => insertKey l (lowercase a.owner)) [] ∧
      (defaultOwner = none → svc.selectedOwner = none) := by
  unfold mkService at h
  by_cases he : accounts.isEmpty
  · rw [if_pos he] at h
    exact Except.noConfusion h
  · rw [if_neg he] at h
    injection h with h2
    subst h2
    refine ⟨rfl, ?_⟩
    intro hd
    subst hd
    rfl

theorem lowercase_eq_empty_iff (s : String) : lowercase s = "" ↔ s = "" := by
  cases s with
  | mk data =>
      unfold lowercase
      constructor
      · intro h
        have hdata := congrArg String.data h
        simp only at hdata
        rw [List.map_eq_nil_iff] at hdata
        simp [hdata]
      · intro h
        rw [h]
        rfl

theorem parseAccountsStep_preserves_nonempty (env : List (String × String))
    (init : List GitHubAccount) (kv : String × String)
    (hinit : ∀ a ∈ init, a.owner ≠ "") :
    ∀ a ∈ parseAccountsStep env init kv, a.owner ≠ "" := by
  unfold parseAccountsStep
  split
  · cases henv : envLookup env ("GITHUB_OWNER_" ++ stripFirst kv.1 "GITHUB_TOKEN_") with
    | none => simpa [henv] using hinit
    | some owner =>
        simp only [henv]
        split
        · rename_i hguard
          intro a ha
          rcases List.mem_append.1 ha with h | h
          · exact hinit a h
          · rw [List.mem_singleton] at h
            subst h
            exact hguard.2
        · exact hinit
  · exact hinit

theorem parseGitHubAccounts_owners_nonempty (env : List (String × String))
    (accounts : List GitHubAccount)
    (h : parseGitHubAccounts env = .ok accounts) :
    ∀ a ∈ accounts, a.owner ≠ "" := by
  unfold parseGitHubAccounts at h
  have hfold : ∀ (entries : List (String × String)) (init : List GitHubAccount),
      (∀ a ∈ init, a.owner ≠ "") →
      ∀ a ∈ entries.foldl (parseAccountsStep env) init, a.owner ≠ "" := by
    intro entries
    induction entries with
    | nil => intro init hinit; simpa using hinit
    | cons kv rest ih =>
        intro init hinit
        simp only [List.foldl_cons]
        exact ih (parseAccountsStep env init kv)
          (parseAccountsStep_preserves_nonempty env init kv hinit)
  by_cases he : (env.foldl (parseAccountsStep env) []).isEmpty
  · rw [if_pos he] at h
    exact Except.noConfusion h
  · rw [if_neg he] at h
    injection h with h2
    subst h2
    exact hfold env [] (by intro a ha; cases ha)

/-! ## Claim theorems: account registry -/

/-- Witness fixtures. -/
def svcAB : GitHubServiceImpl := { keys := ["alice", "bob"], selectedOwner := none }

def svcABSel : GitHubServiceImpl := { keys := ["alice", "bob"], selectedOwner := some "bob" }

def svcA : GitHubServiceImpl := { keys := ["alice"], selectedOwner := none }

/-- C6: for every registry state and every owner string with no
case-insensitive match among the registered accounts (the Map keys are
exactly the case-folded configured owner names), `selectAccount` fails
with the `Invalid owner` error whose message enumerates the valid owners,
and the registry state — in particular the selected-owner slot — is left
exactly as it was. -/
theorem c6_selectAccount_unknown_owner (svc : GitHubServiceImpl) (owner : String)
    (h : svc.keys.contains (lowercase owner) = false) :
    selectAccount svc owner =
      (.error (.mcpError .invalidParams
        ("Invalid owner: " ++ owner ++ ". Available owners: "
          ++ String.intercalate ", " (listAccounts svc))), svc) := by
  unfold selectAccount
  rw [if_neg (fun hc => by rw [h] at hc; exact absurd hc (by decide))]

theorem c6_selectAccount_unknown_owner_witness :
    svcAB.keys.contains (lowercase "Carol") = false
    ∧ selectAccount svcAB "Carol" =
        (.error (.mcpError .invalidParams
          "Invalid owner: Carol. Available owners: alice, bob"), svcAB) :=
  ⟨by decide,
   (c6_selectAccount_unknown_owner svcAB "Carol" (by decide)).trans (by decide)⟩

/-- C7: a registry freshly constructed with no default owner resolves an
omitted owner to the `No owner selected` error whose message enumerates
the configured owners, and after a successful `selectAccount(X)` an
owner-omitting resolution returns `X`.  The nonempty-owner-name
hypothesis matches what the configuration parser admits (see
`parseGitHubAccounts_owners_nonempty`). -/
theorem c7_resolveOwner_selection (accounts : List GitHubAccount)
    (svc svc2 : GitHubServiceImpl) (X : String)
    (hmk : mkService accounts none = .ok svc)
    (hne : "" ∉ accounts.map (fun a => a.owner))
    (hsel : selectAccount svc X = (.ok (), svc2)) :
    getEffectiveOwner svc none =
        .error (.mcpError .invalidParams
          ("No owner selected. Use list_accounts to see available accounts and select_account to choose one. Available owners: "
            ++ String.intercalate ", " (listAccounts svc)))
      ∧ getEffectiveOwner svc2 none = .ok X := by
  obtain ⟨hkeys, hselnone⟩ := mkService_ok_parts accounts none svc hmk
  have hnone : svc.selectedOwner = none := hselnone rfl
  constructor
  · simp [getEffectiveOwner, jsOrString, hnone, noOwnerSelectedError]
  · unfold selectAccount at hsel
    by_cases hc : svc.keys.contains (lowercase X)
    · rw [if_pos hc] at hsel
      have hsvc2 : svc2 = { svc with selectedOwner := some X } :=
        (Prod.ext_iff.1 hsel).2.symm
      have hXmem : lowercase X ∈ svc.keys := by
        simpa [List.contains, List.elem_eq_mem] using hc
      have hXne : X ≠ "" := by
        intro hX
        subst hX
        rw [hkeys, mem_foldl_insertKey] at hXmem
        rcases hXmem with h | ⟨a, ha, hlow⟩
        · cases h
        · have : a.owner = "" := by
            rw [← lowercase_eq_empty_iff]
            simpa using hlow
          exact hne (this ▸ List.mem_map_of_mem (fun a => a.owner) ha)
      rw [hsvc2]
      simp [getEffectiveOwner, jsOrString, hXne]
    · rw [if_neg hc] at hsel
      exact Except.noConfusion (Prod.ext_iff.1 hsel).1

theorem c7_resolveOwner_selection_witness :
    mkService [⟨"alice", "t1"⟩, ⟨"bob", "t2"⟩] none = .ok svcAB
    ∧ "" ∉ ([⟨"alice", "t1"⟩, ⟨"bob", "t2"⟩] : List GitHubAccount).map (fun a => a.owner)
    ∧ selectAccount svcAB "bob" = (.ok (), svcABSel)
    ∧ getEffectiveOwner svcAB none =
        .error (.mcpError .invalidParams
          "No owner selected. Use list_accounts to see available accounts and select_account to choose one. Available owners: alice, bob")
    ∧ getEffectiveOwner svcABSel none = .ok "bob" :=
  ⟨by decide, by decide, by decide,
   ((c7_resolveOwner_selection [⟨"alice", "t1"⟩, ⟨"bob", "t2"⟩] svcAB svcABSel "bob"
      (by decide) (by decide) (by decide)).1).trans (by decide),
   (c7_resolveOwner_selection [⟨"alice", "t1"⟩, ⟨"bob", "t2"⟩] svcAB svcABSel "bob"
      (by decide) (by decide) (by decide)).2⟩

/-- C8 counterexample: `listAccounts` does not return the configured
owner names as supplied — a configuration naming `Alice` yields the
case-folded `alice`. -/
theorem c8_counterexample_listAccounts_casefolds :
    (mkService [⟨"Alice", "token1"⟩] none).map listAccounts = .ok ["alice"]
    ∧ (mkService [⟨"Alice", "token1"⟩] none).map listAccounts ≠ .ok ["Alice"] := by
  exact ⟨by decide, by decide⟩

/-- C8 (amended): `listAccounts` returns the configured owner names
lowercased, in the insertion order of the configuration, whenever the
configured owners are case-insensitively distinct (the §3 registry
invariant); it has no failure mode. -/
theorem c8_amended_listAccounts_casefolded_order (accounts : List GitHubAccount)
    (d : Option String) (svc : GitHubServiceImpl)
    (hmk : mkService accounts d = .ok svc)
    (hnodup : (accounts.map (fun a => lowercase a.owner)).Nodup) :
    listAccounts svc = accounts.map (fun a => lowercase a.owner) := by
  have hk := (mkService_ok_parts accounts d svc hmk).1
  unfold listAccounts
  rw [hk, foldl_insertKey_nodup accounts [] hnodup (by intro a ha; simp)]
  simp

theorem c8_amended_listAccounts_casefolded_order_witness :
    mkService [⟨"Alice", "t1"⟩, ⟨"Bob", "t2"⟩] none = .ok svcAB
    ∧ (([⟨"Alice", "t1"⟩, ⟨"Bob", "t2"⟩] : List GitHubAccount).map
        (fun a => lowercase a.owner)).Nodup
    ∧ listAccounts svcAB = ["alice", "bob"] :=
  ⟨by decide, by decide,
   (c8_amended_listAccounts_casefolded_order [⟨"Alice", "t1"⟩, ⟨"Bob", "t2"⟩] none svcAB
      (by decide) (by decide)).trans (by decide)⟩

/-- C10: an explicit owner argument that is the empty string is treated
as absent — resolution behaves exactly as with no owner argument, falling
back to the selected owner, and failing with the no-owner-selected error
when none is selected. -/
theorem c10_empty_owner_treated_as_absent (svc : GitHubServiceImpl) :
    getEffectiveOwner svc (some "") = getEffectiveOwner svc none
    ∧ (svc.selectedOwner = none →
        getEffectiveOwner svc (some "") = .error (noOwnerSelectedError svc))
    ∧ ∀ s, svc.selectedOwner = some s → s ≠ "" →
        getEffectiveOwner svc (some "") = .ok s := by
  refine ⟨by simp [getEffectiveOwner, jsOrString], ?_, ?_⟩
  · intro h
    simp [getEffectiveOwner, jsOrString, h]
  · intro s hs hne
    simp [getEffectiveOwner, jsOrString, hs, hne]

theorem c10_empty_owner_treated_as_absent_witness :
    svcA.selectedOwner = none
    ∧ getEffectiveOwner svcA (some "") = .error (noOwnerSelectedError svcA) :=
  ⟨rfl, (c10_empty_owner_treated_as_absent svcA).2.1 rfl⟩

/-! ## Claim theorems: file operators -/

/-- C9: when the remote fetch yields inline content and the local read
succeeds, `compare_files` reports identical exactly when the two decoded
contents match, and otherwise reports different with both sizes (and the
remote sha) populated. -/
theorem c9_compareFiles_identical_iff (svc : GitHubServiceImpl) (api : RepoApi)
    (args : Option FileArgs) (a : FileArgs) (eo k : String) (cd : ContentData)
    (remote localContent : String)
    (hval : validateFileArgs args ["repo", "path", "localPath"] = .ok a)
    (heo : getEffectiveOwner svc a.owner = .ok eo)
    (hk : getOctokitForOwner svc a.owner = .ok k)
    (hget : api.getContent eo (a.repo.getD "") (a.path.getD "") (a.branch.getD "main") = .ok cd)
    (hcontent : cd.content = some remote)
    (hread : api.readFile (a.localPath.getD "") = .ok localContent) :
    (localContent = remote →
      handleCompareFiles svc api args =
        .ok { isDifferent := false, message := "Files are identical", details := none })
    ∧ (localContent ≠ remote →
      handleCompareFiles svc api args =
        .ok { isDifferent := true, message := "Files are different",
              details := some { localSize := localContent.length,
                                remoteSize := remote.length,
                                remoteSha := cd.sha } }) := by
  constructor
  · intro heq
    subst heq
    simp [handleCompareFiles, compareFilesBody, hval, heo, hk, hget, hcontent, hread,
      wrapCatch, liftApiE, liftJsE, Bind.bind, Except.bind, Pure.pure, Except.pure]
  · intro hne
    simp [handleCompareFiles, compareFilesBody, hval, heo, hk, hget, hcontent, hread,
      wrapCatch, liftApiE, liftJsE, Bind.bind, Except.bind, Pure.pure, Except.pure,
      bne, beq_iff_eq, hne]

/-- Witness fixtures for the file operators. -/
def fileSvc : GitHubServiceImpl := { keys := ["alice"], selectedOwner := some "alice" }

def fileApi : RepoApi where
  getContent := fun _ _ p _ =>
    if p = "README.md" then .ok { content := some "hello", sha := some "sha0" }
    else .error { status := some 404, message := "Not Found" }
  createOrUpdateFileContents := fun _ => .ok "upserted"
  readFile := fun p => if p = "local/readme.md" then .ok "hello" else .error "ENOENT"

def compareArgs : FileArgs :=
  { repo := some "demo", path := some "README.md", localPath := some "local/readme.md" }

theorem c9_compareFiles_identical_iff_witness :
    validateFileArgs (some compareArgs) ["repo", "path", "localPath"] = .ok compareArgs
    ∧ fileApi.getContent "alice" "demo" "README.md" "main" =
        .ok { content := some "hello", sha := some "sha0" }
    ∧ fileApi.readFile "local/readme.md" = .ok "hello"
    ∧ handleCompareFiles fileSvc fileApi (some compareArgs) =
        .ok { isDifferent := false, message := "Files are identical", details := none } :=
  ⟨by decide, by decide, by decide,
   (c9_compareFiles_identical_iff fileSvc fileApi (some compareArgs) compareArgs
      "alice" "alice" { content := some "hello", sha := some "sha0" } "hello" "hello"
      (by decide) (by decide) (by decide) (by decide) (by decide) (by decide)).1 rfl⟩

/-- C1 (code bug): a `push_file` invocation with all required arguments
present, a resolvable owner and a readable local source file is rejected:
the handler forwards the file text as an inline `content` argument to
`handleCreateOrUpdateFile`, whose policy check refuses any args object
carrying a `content` key, so the upsert is never performed.  The first
two conjuncts exhibit that the input is valid (arguments validate, the
local read succeeds); the third evaluates the handler at it. -/
theorem c1_pushFile_rejected_as_inline_upload :
    validateFileArgs (some
        { repo := some "demo", path := some "README.md", message := some "update",
          sourcePath := some "local/readme.md" }) ["repo", "path", "message", "sourcePath"] =
      .ok { repo := some "demo", path := some "README.md", message := some "update",
            sourcePath := some "local/readme.md" }
    ∧ fileApi.readFile "local/readme.md" = .ok "hello"
    ∧ handlePushFile fileSvc fileApi (some
        { repo := some "demo", path := some "README.md", message := some "update",
          sourcePath := some "local/readme.md" }) =
      .error (.mcpError .invalidParams
        "Direct content upload is not allowed. Use push_file with sourcePath instead.") := by
  exact ⟨by decide, by decide, by decide⟩

/-! ## CommitM evaluation lemmas -/

theorem CommitM.bind_apply (x : CommitM α) (f : α → CommitM β) (s : List GitCall) :
    (x >>= f) s =
      match x s with
      | (s1, .ok a) => f a s1
      | (s1, .error e) => (s1, .error e) := rfl

theorem CommitM.pure_apply (a : α) (s : List GitCall) :
    (pure a : CommitM α) s = (s, .ok a) := rfl

theorem CommitM.throw_apply (e : Thrown) (s : List GitCall) :
    (CommitM.throw e : CommitM α) s = (s, .error e) := rfl

theorem CommitM.tryCatch_apply (x : CommitM α) (h : Thrown → CommitM α) (s : List GitCall) :
    CommitM.tryCatch x h s =
      match x s with
      | (s1, .ok a) => (s1, .ok a)
      | (s1, .error e) => h e s1 := rfl

theorem emitCall_apply (c : GitCall) (s : List GitCall) :
    emitCall c s = (s ++ [c], .ok ()) := rfl

theorem liftApi_ok (r : Except String α) (a : α) (h : r = .ok a) (s : List GitCall) :
    liftApi r s = (s, .ok a) := by
  subst h; rfl

theorem liftApi_error (r : Except String α) (m : String) (h : r = .error m) (s : List GitCall) :
    liftApi r s = (s, .error (.jsError m)) := by
  subst h; rfl

theorem liftThrown_apply (r : Except Thrown α) (s : List GitCall) :
    liftThrown r s = (s, r) := rfl

/-! ## Blob-loop lemmas -/

theorem processChanges_first_invalid (api : GitApi) (eo repo : String)
    (l : List Change) (c : Change)
    (hfirst : firstNonDelete l = some c) (hsp : c.sourcePath = none) :
    ∀ s, processChanges api eo repo l s =
      (s, .error (.mcpError .invalidParams
        ("sourcePath required for " ++ c.operation.str ++ " operation on " ++ c.path))) := by
  induction l with
  | nil => cases hfirst
  | cons c0 rest ih =>
      intro s
      by_cases hop : c0.operation = .delete
      · have hfirst2 : firstNonDelete rest = some c := by
          simpa [firstNonDelete, hop] using hfirst
        simpa [processChanges, hop] using ih hfirst2 s
      · have hc : c0 = c := by
          have := hfirst
          simp only [firstNonDelete, if_neg hop] at this
          exact Option.some.inj this
        subst hc
        cases hop2 : c0.operation with
        | delete => exact absurd hop2 hop
        | add =>
            simp [processChanges, hop2, hsp, CommitM.throw_apply, ChangeOp.str]
        | modify =>
            simp [processChanges, hop2, hsp, CommitM.throw_apply, ChangeOp.str]

theorem processChanges_all_ok (api : GitApi) (eo repo : String) (l : List Change)
    (h : l.all (fun c => c.operation == .delete || (changeEntry api eo repo c).isSome) = true) :
    ∀ s, processChanges api eo repo l s =
      (s ++ (l.map (changeCalls api eo repo)).join,
       .ok (l.filterMap (changeEntry api eo repo))) := by
  induction l with
  | nil =>
      intro s
      have hnil : processChanges api eo repo ([] : List Change) s = (s, .ok []) := rfl
      rw [hnil]
      simp
  | cons c0 rest ih =>
      intro s
      rw [List.all_cons, Bool.and_eq_true] at h
      obtain ⟨h0, hrest⟩ := h
      cases hop : c0.operation with
      | delete =>
          have he : changeEntry api eo repo c0 = none := by
            simp [changeEntry, hop]
          have hc : changeCalls api eo repo c0 = [] := by
            simp [changeCalls, hop]
          simp only [List.map_cons, List.join_cons, List.filterMap_cons, he, hc,
            List.nil_append]
          simpa [processChanges, hop] using ih hrest s
      | add =>
          rw [hop] at h0
          simp only [show (ChangeOp.add == ChangeOp.delete) = false from rfl,
            Bool.false_or] at h0
          cases hsp : c0.sourcePath with
          | none => rw [show changeEntry api eo repo c0 = none from by
                      simp [changeEntry, hop, hsp]] at h0; cases h0
          | some sp =>
              cases hrd : api.readFile sp with
              | error m => rw [show changeEntry api eo repo c0 = none from by
                            simp [changeEntry, hop, hsp, hrd]] at h0; cases h0
              | ok content =>
                  cases hcb : api.createBlob eo repo content with
                  | error m => rw [show changeEntry api eo repo c0 = none from by
                                simp [changeEntry, hop, hsp, hrd, hcb]] at h0; cases h0
                  | ok sha =>
                      have he : changeEntry api eo repo c0 =
                          some { path := c0.path, mode := "100644",
                                 entryType := "blob", sha := sha } := by
                        simp [changeEntry, hop, hsp, hrd, hcb]
                      have hcalls : changeCalls api eo repo c0 =
                          [GitCall.readFile sp, GitCall.createBlob eo repo content] := by
                        simp [changeCalls, hop, hsp, hrd]
                      simp only [processChanges, hop, hsp, CommitM.bind_apply,
                        emitCall_apply, liftApi_ok _ _ hrd, liftApi_ok _ _ hcb,
                        ih hrest, CommitM.pure_apply, List.map_cons, List.join_cons,
                        List.filterMap_cons, he, hcalls]
                      simp [Pure.pure, CommitM.pure, List.append_assoc]
      | modify =>
          rw [hop] at h0
          simp only [show (ChangeOp.modify == ChangeOp.delete) = false from rfl,
            Bool.false_or] at h0
          cases hsp : c0.sourcePath with
          | none => rw [show changeEntry api eo repo c0 = none from by
                      simp [changeEntry, hop, hsp]] at h0; cases h0
          | some sp =>
              cases hrd : api.readFile sp with
              | error m => rw [show changeEntry api eo repo c0 = none from by
                            simp [changeEntry, hop, hsp, hrd]] at h0; cases h0
              | ok content =>
                  cases hcb : api.createBlob eo repo content with
                  | error m => rw [show changeEntry api eo repo c0 = none from by
                                simp [changeEntry, hop, hsp, hrd, hcb]] at h0; cases h0
                  | ok sha =>
                      have he : changeEntry api eo repo c0 =
                          some { path := c0.path, mode := "100644",
                                 entryType := "blob", sha := sha } := by
                        simp [changeEntry, hop, hsp, hrd, hcb]
                      have hcalls : changeCalls api eo repo c0 =
                          [GitCall.readFile sp, GitCall.createBlob eo repo content] := by
                        simp [changeCalls, hop, hsp, hrd]
                      simp only [processChanges, hop, hsp, CommitM.bind_apply,
                        emitCall_apply, liftApi_ok _ _ hrd, liftApi_ok _ _ hcb,
                        ih hrest, CommitM.pure_apply, List.map_cons, List.join_cons,
                        List.filterMap_cons, he, hcalls]
                      simp [Pure.pure, CommitM.pure, List.append_assoc]

/-- The commit parameter object the handler assembles. -/
def commitParamsOf (eo : String) (req : CommitRequest) (rd : RefData) (ts : String) :
    CommitParams :=
  { owner := eo, repo := req.repo, message := req.message, tree := ts,
    parents := [rd.sha], author := req.author, sign := req.sign }

/-- The calls issued by a run that reaches the branch-reference update. -/
def commitPrefixLog (api : GitApi) (eo : String) (req : CommitRequest)
    (rd : RefData) (ci : CommitInfo) (ts : String) (cd : CommitData) : List GitCall :=
  [GitCall.getRef eo req.repo ("heads/" ++ req.branch),
   GitCall.getCommit eo req.repo rd.sha]
  ++ (req.changes.map (changeCalls api eo req.repo)).join
  ++ [GitCall.createTree eo req.repo ci.treeSha
        (req.changes.filterMap (changeEntry api eo req.repo)),
      GitCall.createCommit (commitParamsOf eo req rd ts),
      GitCall.updateRef eo req.repo ("heads/" ++ req.branch) cd.sha]

theorem createCommitBody_success_eval (svc : GitHubServiceImpl) (api : GitApi)
    (req : CommitRequest) (notify : Option (String → String → Except String Unit))
    (k eo : String) (rd : RefData) (ci : CommitInfo) (ts : String) (cd : CommitData)
    (hk : getOctokitForOwner svc req.owner = .ok k)
    (heo : getEffectiveOwner svc req.owner = .ok eo)
    (href : api.getRef eo req.repo ("heads/" ++ req.branch) = .ok rd)
    (hci : api.getCommitInfo eo req.repo rd.sha = .ok ci)
    (hch : req.changes.all
      (fun c => c.operation == .delete || (changeEntry api eo req.repo c).isSome) = true)
    (htree : api.createTree eo req.repo ci.treeSha
      (req.changes.filterMap (changeEntry api eo req.repo)) = .ok ts)
    (hcommit : api.createCommit (commitParamsOf eo req rd ts) = .ok cd)
    (hupd : api.updateRef eo req.repo ("heads/" ++ req.branch) cd.sha = .ok ()) :
    ∀ s, createCommitBody svc api req notify s =
      verifyAndNotify api eo req.repo notify cd
        (s ++ commitPrefixLog api eo req rd ci ts cd) := by
  intro s
  unfold createCommitBody
  simp only [CommitM.bind_apply, liftThrown_apply, hk, heo, emitCall_apply,
    liftApi_ok _ _ href, liftApi_ok _ _ hci,
    processChanges_all_ok api eo req.repo req.changes hch,
    liftApi_ok _ _ htree]
  simp only [commitParamsOf] at hcommit hupd
  simp only [liftApi_ok _ _ hcommit, liftApi_ok _ _ hupd]
  congr 1
  simp [commitPrefixLog, commitParamsOf, List.append_assoc]

theorem verifyAndNotify_eval (api : GitApi) (eo repo : String) (cd : CommitData)
    (vi : CommitInfo) (notify : Option (String → String → Except String Unit))
    (hsha : cd.sha ≠ "")
    (hver : api.getCommitInfo eo repo cd.sha = .ok vi) :
    ∀ s, verifyAndNotify api eo repo notify cd s =
      match notify with
      | none => (s ++ [GitCall.getCommit eo repo cd.sha], .ok (.ok cd))
      | some f =>
          match f repo cd.sha with
          | .ok _ =>
              (s ++ [GitCall.getCommit eo repo cd.sha, GitCall.notify repo cd.sha],
               .ok (.ok cd))
          | .error _ =>
              (s ++ [GitCall.getCommit eo repo cd.sha, GitCall.notify repo cd.sha],
               .ok (.okWithWarning cd
                 "Commit successful but failed to clear project changes")) := by
  intro s
  unfold verifyAndNotify
  rw [if_pos hsha]
  cases notify with
  | none =>
      simp [CommitM.tryCatch_apply, CommitM.bind_apply, emitCall_apply,
        liftApi_ok _ _ hver, Pure.pure, CommitM.pure]
  | some f =>
      cases hf : f repo cd.sha with
      | ok u =>
          cases u
          simp [CommitM.tryCatch_apply, CommitM.bind_apply, emitCall_apply,
            hver, liftApi, hf, Pure.pure, CommitM.pure,
            List.append_assoc]
      | error m =>
          simp [CommitM.tryCatch_apply, CommitM.bind_apply, emitCall_apply,
            hver, liftApi, hf, Pure.pure, CommitM.pure,
            List.append_assoc]

theorem changeCalls_not_tree_or_commit (api : GitApi) (eo repo : String)
    (c : Change) (x : GitCall) (hx : x ∈ changeCalls api eo repo c) :
    isCreateTreeCall x = false ∧ isCreateCommitCall x = false := by
  unfold changeCalls at hx
  split at hx
  · cases hx
  · split at hx
    · cases hx
    · rcases List.mem_cons.1 hx with rfl | hx2
      · exact ⟨rfl, rfl⟩
      · split at hx2
        · cases hx2
        · rw [List.mem_singleton] at hx2
          subst hx2
          exact ⟨rfl, rfl⟩

theorem filterMap_changeEntry_skip_deletes (api : GitApi) (eo repo : String)
    (l : List Change) :
    l.filterMap (changeEntry api eo repo) =
      (l.filter (fun c => !(c.operation == ChangeOp.delete))).filterMap
        (changeEntry api eo repo) := by
  induction l with
  | nil => rfl
  | cons c rest ih =>
      cases hop : c.operation with
      | delete =>
          have he : changeEntry api eo repo c = none := by simp [changeEntry, hop]
          simp [List.filterMap_cons, List.filter_cons, hop, he, ih]
      | add => simp [List.filterMap_cons, List.filter_cons, hop, ih]
      | modify => simp [List.filterMap_cons, List.filter_cons, hop, ih]

theorem changeEntry_shape (api : GitApi) (eo repo : String) (c : Change) (e : TreeEntry)
    (h : changeEntry api eo repo c = some e) :
    e.path = c.path ∧ e.mode = "100644" ∧ e.entryType = "blob" := by
  unfold changeEntry at h
  split at h
  · cases h
  · split at h
    · cases h
    · split at h
      · cases h
      · split at h
        · cases h
        · injection h with h2
          subst h2
          exact ⟨rfl, rfl, rfl⟩

theorem applyTreeOverrides_preserves (base : List (String × String))
    (ov : List TreeEntry) (p h0 : String) (hmem : (p, h0) ∈ base) :
    (∃ h1, (p, h1) ∈ applyTreeOverrides base ov)
    ∧ ((∀ e ∈ ov, e.path ≠ p) → (p, h0) ∈ applyTreeOverrides base ov) := by
  unfold applyTreeOverrides
  constructor
  · cases hfind : ov.find? (fun e => e.path = p) with
    | some e =>
        exact ⟨e.sha, List.mem_append_left _
          (List.mem_map.2 ⟨(p, h0), hmem, by simp [hfind]⟩)⟩
    | none =>
        exact ⟨h0, List.mem_append_left _
          (List.mem_map.2 ⟨(p, h0), hmem, by simp [hfind]⟩)⟩
  · intro hno
    have hfind : ov.find? (fun e => e.path = p) = none := by
      rw [List.find?_eq_none]
      intro e he
      simp [hno e he]
    exact List.mem_append_left _
      (List.mem_map.2 ⟨(p, h0), hmem, by simp [hfind]⟩)

/-! ## Claim theorems: commit assembler -/

/-- C2 (amended): when the first change the blob loop does not skip lacks
`sourcePath`, `createCommit` fails with the `InvalidChange` message
(wrapped by the catch-all) and makes no remote writes at all: the only
issued calls are the two head reads.  (As stated, the claim fails when a
valid add/modify precedes the invalid change — see the counterexample —
because the loop creates a blob per earlier change before failing.) -/
theorem c2_amended_first_invalid_change_no_writes (svc : GitHubServiceImpl)
    (api : GitApi) (req : CommitRequest)
    (notify : Option (String → String → Except String Unit))
    (k eo : String) (rd : RefData) (ci : CommitInfo) (c : Change)
    (hk : getOctokitForOwner svc req.owner = .ok k)
    (heo : getEffectiveOwner svc req.owner = .ok eo)
    (href : api.getRef eo req.repo ("heads/" ++ req.branch) = .ok rd)
    (hci : api.getCommitInfo eo req.repo rd.sha = .ok ci)
    (hfirst : firstNonDelete req.changes = some c)
    (hsp : c.sourcePath = none) :
    runCreateCommit svc api req notify =
      ([GitCall.getRef eo req.repo ("heads/" ++ req.branch),
        GitCall.getCommit eo req.repo rd.sha],
       .error (.mcpError .internalError
         ("Failed to create commit: sourcePath required for "
           ++ c.operation.str ++ " operation on " ++ c.path)))
    ∧ ∀ x ∈ (runCreateCommit svc api req notify).1, isRemoteWrite x = false := by
  have hloop := processChanges_first_invalid api eo req.repo req.changes c hfirst hsp
  have hrun : runCreateCommit svc api req notify =
      ([GitCall.getRef eo req.repo ("heads/" ++ req.branch),
        GitCall.getCommit eo req.repo rd.sha],
       .error (.mcpError .internalError
         ("Failed to create commit: sourcePath required for "
           ++ c.operation.str ++ " operation on " ++ c.path))) := by
    unfold runCreateCommit createCommitBody
    simp only [CommitM.tryCatch_apply, CommitM.bind_apply, liftThrown_apply, hk, heo,
      emitCall_apply, liftApi_ok _ _ href, liftApi_ok _ _ hci, hloop,
      CommitM.throw_apply, List.nil_append, Thrown.message]
    have hs : ("Failed to create commit: " : String) ++ "sourcePath required for " =
        "Failed to create commit: sourcePath required for " := by decide
    simp [List.singleton_append, ← String.append_assoc, hs]
  refine ⟨hrun, ?_⟩
  rw [hrun]
  intro x hx
  rcases List.mem_cons.1 hx with rfl | hx2
  · rfl
  · rw [List.mem_singleton] at hx2
    subst hx2
    rfl

/-- Commit-assembler fixtures. -/
def commitSvc : GitHubServiceImpl := { keys := ["alice"], selectedOwner := some "alice" }

def commitApi : GitApi where
  getRef := fun _ _ r => if r = "heads/main" then .ok { sha := "H" } else .error "Not Found"
  getCommitInfo := fun _ _ s =>
    if s = "H" then .ok { sha := "H", treeSha := "T" }
    else .ok { sha := s, treeSha := "T2" }
  createBlob := fun _ _ content => .ok ("blob-" ++ content)
  createTree := fun _ _ _ _ => .ok "newT"
  createCommit := fun _ => .ok { sha := "C1" }
  updateRef := fun _ _ _ _ => .ok ()
  readFile := fun p => if p = "local/a.txt" then .ok "A" else .error "ENOENT"

def mixedReq : CommitRequest :=
  { repo := "r", branch := "main", message := "m",
    changes := [{ path := "a.txt", sourcePath := some "local/a.txt", operation := .add },
                { path := "b.txt", sourcePath := none, operation := .modify }] }

def invalidFirstReq : CommitRequest :=
  { repo := "r", branch := "main", message := "m",
    changes := [{ path := "d.txt", sourcePath := none, operation := .delete },
                { path := "b.txt", sourcePath := none, operation := .modify }] }

def goodReq : CommitRequest :=
  { repo := "r", branch := "main", message := "m",
    changes := [{ path := "a.txt", sourcePath := some "local/a.txt", operation := .add },
                { path := "d.txt", sourcePath := none, operation := .delete }] }

/-- C2 counterexample: a request whose changes are a valid `add` followed
by a `modify` without `sourcePath` does fail, but a blob-creation call
for the first change has already been issued — so it is not true that no
blob creation is issued for any change in the list. -/
theorem c2_counterexample_blob_created_before_failure :
    (mixedReq.changes.any
      (fun c => !(c.operation == ChangeOp.delete) && c.sourcePath.isNone)) = true
    ∧ GitCall.createBlob "alice" "r" "A" ∈ (runCreateCommit commitSvc commitApi mixedReq none).1
    ∧ (runCreateCommit commitSvc commitApi mixedReq none).2 =
        .error (.mcpError .internalError
          "Failed to create commit: sourcePath required for modify operation on b.txt") := by
  exact ⟨by decide, by decide, by decide⟩

theorem c2_amended_first_invalid_change_no_writes_witness :
    firstNonDelete invalidFirstReq.changes =
      some { path := "b.txt", sourcePath := none, operation := ChangeOp.modify }
    ∧ runCreateCommit commitSvc commitApi invalidFirstReq none =
        ([GitCall.getRef "alice" "r" "heads/main", GitCall.getCommit "alice" "r" "H"],
         .error (.mcpError .internalError
           "Failed to create commit: sourcePath required for modify operation on b.txt")) :=
  ⟨by decide,
   (c2_amended_first_invalid_change_no_writes commitSvc commitApi invalidFirstReq none
      "alice" "alice" { sha := "H" } { sha := "H", treeSha := "T" }
      { path := "b.txt", sourcePath := none, operation := ChangeOp.modify }
      (by decide) (by decide) (by decide) (by decide) (by decide) (by decide)).1.trans
     (by decide)⟩

/-- C3: on a successful run, the entry list submitted to the remote
tree-construction call is exactly one `{path, 100644, blob, sha}` entry
per add/modify change in the order the changes appear, with no entry for
any delete change — removing the delete changes from the list leaves the
submitted entries unchanged. -/
theorem c3_createCommit_tree_override_entries (svc : GitHubServiceImpl)
    (api : GitApi) (req : CommitRequest) (k eo : String) (rd : RefData)
    (ci : CommitInfo) (ts : String) (cd : CommitData) (vi : CommitInfo)
    (hk : getOctokitForOwner svc req.owner = .ok k)
    (heo : getEffectiveOwner svc req.owner = .ok eo)
    (href : api.getRef eo req.repo ("heads/" ++ req.branch) = .ok rd)
    (hci : api.getCommitInfo eo req.repo rd.sha = .ok ci)
    (hch : req.changes.all
      (fun c => c.operation == .delete || (changeEntry api eo req.repo c).isSome) = true)
    (htree : api.createTree eo req.repo ci.treeSha
      (req.changes.filterMap (changeEntry api eo req.repo)) = .ok ts)
    (hcommit : api.createCommit (commitParamsOf eo req rd ts) = .ok cd)
    (hupd : api.updateRef eo req.repo ("heads/" ++ req.branch) cd.sha = .ok ())
    (hsha : cd.sha ≠ "")
    (hver : api.getCommitInfo eo req.repo cd.sha = .ok vi) :
    (runCreateCommit svc api req none).1.filter isCreateTreeCall =
      [GitCall.createTree eo req.repo ci.treeSha
        (req.changes.filterMap (changeEntry api eo req.repo))]
    ∧ req.changes.filterMap (changeEntry api eo req.repo) =
        (req.changes.filter (fun c => !(c.operation == ChangeOp.delete))).filterMap
          (changeEntry api eo req.repo)
    ∧ (∀ c0 ∈ req.changes, c0.operation = ChangeOp.delete →
        changeEntry api eo req.repo c0 = none)
    ∧ (∀ c0 ∈ req.changes, c0.operation ≠ ChangeOp.delete →
        ∃ sha, changeEntry api eo req.repo c0 =
          some { path := c0.path, mode := "100644", entryType := "blob", sha := sha }) := by
  have hbody := createCommitBody_success_eval svc api req none k eo rd ci ts cd
    hk heo href hci hch htree hcommit hupd
  have hvn := verifyAndNotify_eval api eo req.repo cd vi none hsha hver
  have hrun : runCreateCommit svc api req none =
      (commitPrefixLog api eo req rd ci ts cd ++ [GitCall.getCommit eo req.repo cd.sha],
       .ok (.ok cd)) := by
    unfold runCreateCommit
    rw [CommitM.tryCatch_apply, hbody [], hvn]
    simp
  have hjoin : ((req.changes.map (changeCalls api eo req.repo)).join).filter
      isCreateTreeCall = [] := by
    rw [List.filter_eq_nil_iff]
    intro x hx
    rw [List.mem_join] at hx
    obtain ⟨l, hl, hxl⟩ := hx
    obtain ⟨c0, hc0, rfl⟩ := List.mem_map.1 hl
    simp [(changeCalls_not_tree_or_commit api eo req.repo c0 x hxl).1]
  refine ⟨?_, filterMap_changeEntry_skip_deletes api eo req.repo req.changes, ?_, ?_⟩
  · rw [hrun]
    simp [commitPrefixLog, List.filter_append, hjoin, isCreateTreeCall]
  · intro c0 hc0 hop
    simp [changeEntry, hop]
  · intro c0 hc0 hop
    rw [List.all_eq_true] at hch
    have hc := hch c0 hc0
    rw [Bool.or_eq_true] at hc
    rcases hc with h | h
    · exact absurd (beq_iff_eq.1 h) hop
    · obtain ⟨e, he⟩ := Option.isSome_iff_exists.1 h
      obtain ⟨hp, hm, ht⟩ := changeEntry_shape api eo req.repo c0 e he
      refine ⟨e.sha, ?_⟩
      rw [he]
      cases e
      dsimp at hp hm ht
      subst hp
      subst hm
      subst ht
      rfl

/-- C5: on a successful run against a branch head `H` (= `rd.sha`) whose
commit has tree `T` (= `ci.treeSha`), exactly one commit object is
created, with exactly one parent `H` and the tree returned by the
tree-construction call, which was given `T` as base tree and the
collected entries as overrides; under the spec-assumed remote contract
(`applyTreeOverrides`) every path present in the base tree remains
present, unchanged unless some override entry names it. -/
theorem c5_createCommit_single_parent_and_base_tree (svc : GitHubServiceImpl)
    (api : GitApi) (req : CommitRequest) (k eo : String) (rd : RefData)
    (ci : CommitInfo) (ts : String) (cd : CommitData) (vi : CommitInfo)
    (hk : getOctokitForOwner svc req.owner = .ok k)
    (heo : getEffectiveOwner svc req.owner = .ok eo)
    (href : api.getRef eo req.repo ("heads/" ++ req.branch) = .ok rd)
    (hci : api.getCommitInfo eo req.repo rd.sha = .ok ci)
    (hch : req.changes.all
      (fun c => c.operation == .delete || (changeEntry api eo req.repo c).isSome) = true)
    (htree : api.createTree eo req.repo ci.treeSha
      (req.changes.filterMap (changeEntry api eo req.repo)) = .ok ts)
    (hcommit : api.createCommit (commitParamsOf eo req rd ts) = .ok cd)
    (hupd : api.updateRef eo req.repo ("heads/" ++ req.branch) cd.sha = .ok ())
    (hsha : cd.sha ≠ "")
    (hver : api.getCommitInfo eo req.repo cd.sha = .ok vi) :
    (runCreateCommit svc api req none).1.filter isCreateCommitCall =
      [GitCall.createCommit (commitParamsOf eo req rd ts)]
    ∧ (commitParamsOf eo req rd ts).parents = [rd.sha]
    ∧ (commitParamsOf eo req rd ts).tree = ts
    ∧ GitCall.createTree eo req.repo ci.treeSha
        (req.changes.filterMap (changeEntry api eo req.repo)) ∈
          (runCreateCommit svc api req none).1
    ∧ ∀ (base : List (String × String)) (p h0 : String), (p, h0) ∈ base →
        (∃ h1, (p, h1) ∈
          applyTreeOverrides base (req.changes.filterMap (changeEntry api eo req.repo)))
        ∧ ((∀ e ∈ req.changes.filterMap (changeEntry api eo req.repo), e.path ≠ p) →
            (p, h0) ∈
              applyTreeOverrides base (req.changes.filterMap (changeEntry api eo req.repo))) := by
  have hbody := createCommitBody_success_eval svc api req none k eo rd ci ts cd
    hk heo href hci hch htree hcommit hupd
  have hvn := verifyAndNotify_eval api eo req.repo cd vi none hsha hver
  have hrun : runCreateCommit svc api req none =
      (commitPrefixLog api eo req rd ci ts cd ++ [GitCall.getCommit eo req.repo cd.sha],
       .ok (.ok cd)) := by
    unfold runCreateCommit
    rw [CommitM.tryCatch_apply, hbody [], hvn]
    simp
  have hjoin : ((req.changes.map (changeCalls api eo req.repo)).join).filter
      isCreateCommitCall = [] := by
    rw [List.filter_eq_nil_iff]
    intro x hx
    rw [List.mem_join] at hx
    obtain ⟨l, hl, hxl⟩ := hx
    obtain ⟨c0, hc0, rfl⟩ := List.mem_map.1 hl
    simp [(changeCalls_not_tree_or_commit api eo req.repo c0 x hxl).2]
  refine ⟨?_, rfl, rfl, ?_, ?_⟩
  · rw [hrun]
    simp [commitPrefixLog, List.filter_append, hjoin, isCreateCommitCall]
  · rw [hrun]
    simp [commitPrefixLog]
  · intro base p h0 hmem
    exact applyTreeOverrides_preserves base
      (req.changes.filterMap (changeEntry api eo req.repo)) p h0 hmem

/-- C4: when the commit has been created and the branch reference
updated, a notification callback that throws is downgraded — the handler
still returns a success response carrying the new commit's data and the
warning string, never an error. -/
theorem c4_notify_failure_downgraded_to_warning (svc : GitHubServiceImpl)
    (api : GitApi) (req : CommitRequest) (k eo : String) (rd : RefData)
    (ci : CommitInfo) (ts : String) (cd : CommitData) (vi : CommitInfo)
    (f : String → String → Except String Unit) (m : String)
    (hk : getOctokitForOwner svc req.owner = .ok k)
    (heo : getEffectiveOwner svc req.owner = .ok eo)
    (href : api.getRef eo req.repo ("heads/" ++ req.branch) = .ok rd)
    (hci : api.getCommitInfo eo req.repo rd.sha = .ok ci)
    (hch : req.changes.all
      (fun c => c.operation == .delete || (changeEntry api eo req.repo c).isSome) = true)
    (htree : api.createTree eo req.repo ci.treeSha
      (req.changes.filterMap (changeEntry api eo req.repo)) = .ok ts)
    (hcommit : api.createCommit (commitParamsOf eo req rd ts) = .ok cd)
    (hupd : api.updateRef eo req.repo ("heads/" ++ req.branch) cd.sha = .ok ())
    (hsha : cd.sha ≠ "")
    (hver : api.getCommitInfo eo req.repo cd.sha = .ok vi)
    (hf : f req.repo cd.sha = .error m) :
    (runCreateCommit svc api req (some f)).2 =
      .ok (.okWithWarning cd "Commit successful but failed to clear project changes")
    ∧ GitCall.updateRef eo req.repo ("heads/" ++ req.branch) cd.sha ∈
        (runCreateCommit svc api req (some f)).1 := by
  have hbody := createCommitBody_success_eval svc api req (some f) k eo rd ci ts cd
    hk heo href hci hch htree hcommit hupd
  have hvn := verifyAndNotify_eval api eo req.repo cd vi (some f) hsha hver
  have hrun : runCreateCommit svc api req (some f) =
      (commitPrefixLog api eo req rd ci ts cd
         ++ [GitCall.getCommit eo req.repo cd.sha, GitCall.notify req.repo cd.sha],
       .ok (.okWithWarning cd "Commit successful but failed to clear project changes")) := by
    unfold runCreateCommit
    rw [CommitM.tryCatch_apply, hbody [], hvn]
    simp [hf]
  rw [hrun]
  refine ⟨rfl, ?_⟩
  simp [commitPrefixLog]

theorem c3_createCommit_tree_override_entries_witness :
    goodReq.changes.filterMap (changeEntry commitApi "alice" "r") =
      [{ path := "a.txt", mode := "100644", entryType := "blob", sha := "blob-A" }]
    ∧ (runCreateCommit commitSvc commitApi goodReq none).1.filter isCreateTreeCall =
        [GitCall.createTree "alice" "r" "T"
          [{ path := "a.txt", mode := "100644", entryType := "blob", sha := "blob-A" }]] :=
  ⟨by decide,
   ((c3_createCommit_tree_override_entries commitSvc commitApi goodReq "alice" "alice"
      { sha := "H" } { sha := "H", treeSha := "T" } "newT" { sha := "C1" }
      { sha := "C1", treeSha := "T2" }
      (by decide) (by decide) (by decide) (by decide) (by decide) (by decide)
      (by decide) (by decide) (by decide) (by decide)).1).trans (by decide)⟩

theorem c5_createCommit_single_parent_and_base_tree_witness :
    (runCreateCommit commitSvc commitApi goodReq none).1.filter isCreateCommitCall =
      [GitCall.createCommit
        { owner := "alice", repo := "r", message := "m", tree := "newT",
          parents := ["H"], author := none, sign := false }] :=
  ((c5_createCommit_single_parent_and_base_tree commitSvc commitApi goodReq "alice" "alice"
      { sha := "H" } { sha := "H", treeSha := "T" } "newT" { sha := "C1" }
      { sha := "C1", treeSha := "T2" }
      (by decide) (by decide) (by decide) (by decide) (by decide) (by decide)
      (by decide) (by decide) (by decide) (by decide)).1).trans (by decide)

def failNotify : String → String → Except String Unit := fun _ _ => .error "boom"

theorem c4_notify_failure_downgraded_to_warning_witness :
    failNotify "r" "C1" = .error "boom"
    ∧ (runCreateCommit commitSvc commitApi goodReq (some failNotify)).2 =
        .ok (.okWithWarning { sha := "C1" }
          "Commit successful but failed to clear project changes") :=
  ⟨by decide,
   (c4_notify_failure_downgraded_to_warning commitSvc commitApi goodReq "alice" "alice"
      { sha := "H" } { sha := "H", treeSha := "T" } "newT" { sha := "C1" }
      { sha := "C1", treeSha := "T2" } failNotify "boom"
      (by decide) (by decide) (by decide) (by decide) (by decide) (by decide)
      (by decide) (by decide) (by decide) (by decide) (by decide)).1⟩
